import Mathlib

/-!
# Verification of the kg-similarity product-substitute engine

Shallow embedding of `src/graph.py`: a heterogeneous knowledge graph of
product/category/tag nodes (a `networkx.Graph`), graph construction from
tabular records (`createGraph`), breadth-first candidate discovery
(`bfsSearch`), constraint filtering (`checkConstraints`), similarity scoring
(`scoreCandidate`), explanation generation (`explainRules`) and the
orchestrating `findAlternatives`.

Modelling choices:
* A `networkx.Graph` is represented by two insertion-ordered association
  lists: node key ↦ attributes, and node key ↦ adjacency list (neighbour key
  paired with the edge's `relation` attribute).  NetworkX dicts preserve
  insertion order, so neighbour iteration order is edge-insertion order;
  `add_edge` on an existing pair only overwrites the `relation` attribute,
  which `updateRel` reproduces.
* Python floats are modelled by `Rat`; the magnitudes used in the record data
  are small decimals, where float comparison agrees with exact rational
  comparison.  `pyFloat?` models `float(str)` on plain decimal literals
  (optional sign, digits, optional fractional part, surrounding whitespace);
  the exotic forms (`"1e3"`, `"inf"`, …) play no role in the claims.
* `float()` raising `ValueError` on a non-numeric string is modelled by
  `Except PyError` with the single constructor `PyError.valueError`; no other
  statement of `createGraph` can raise.
* Python's list results of `findAlternatives` are heterogeneous: the normal
  path produces 3-tuples `(productId, score, rules)` and the in-stock path a
  4-tuple `("EXACT_MATCH", productId, 999, ["product_in_stock"])`.  The
  inductive `FAResult` has one constructor per tuple shape.
* `list.sort(key=lambda x: x[1], reverse=True)` is Python's Timsort, which is
  documented to be stable also with `reverse=True`.  Any stable
  descending-by-key sort computes the same list, so it is embedded as a
  stable insertion sort `sortByScoreDesc`.
-/

inductive NodeType where
  | product
  | category
  | tag
deriving DecidableEq, BEq, Repr

/-- Attribute dictionary of a graph node.  In the Python source, nodes carry a
string-keyed attribute dict; `createGraph` gives product nodes all six keys
and category/tag nodes only `type`.  The remaining fields of non-product
nodes default to the values below and are never read on the verified paths. -/
structure NodeAttrs where
  type : NodeType
  brand : String := ""
  category : String := ""
  price : Rat := 0
  stock : Bool := false
  tags : List String := []
deriving DecidableEq, Repr

instance : Inhabited NodeAttrs := ⟨⟨NodeType.product, "", "", 0, false, []⟩⟩

/-- First-match lookup in an insertion-ordered association list (a Python
dict keyed by node name). -/
def lookupA {α : Type} : List (String × α) → String → Option α
  | [], _ => none
  | (k', v) :: rest, k => if k' == k then some v else lookupA rest k

/-- Overwrite the binding of `k` in place (dict assignment): the first entry
with key `k` is replaced keeping its position, a missing key is appended. -/
def setAssoc {α : Type} : List (String × α) → String → α → List (String × α)
  | [], k, v => [(k, v)]
  | (k', v') :: rest, k, v =>
    if k' == k then (k, v) :: rest else (k', v') :: setAssoc rest k v

/-- The embedded `networkx.Graph`: node attributes plus adjacency, both as
insertion-ordered association lists.  An adjacency entry `(w, rel)` records
one endpoint's view of an undirected edge with `relation` attribute `rel`. -/
structure Graph where
  nodes : List (String × NodeAttrs)
  adj : List (String × List (String × String))
deriving DecidableEq, Repr

def Graph.empty : Graph := ⟨[], []⟩

def Graph.getNode (g : Graph) (k : String) : Option NodeAttrs :=
  lookupA g.nodes k

def Graph.hasNode (g : Graph) (k : String) : Bool :=
  (g.getNode k).isSome

def Graph.adjOf (g : Graph) (k : String) : List (String × String) :=
  (lookupA g.adj k).getD []

/-- `graph.neighbors(k)`: neighbour keys in edge-insertion order. -/
def Graph.neighborKeys (g : Graph) (k : String) : List String :=
  (g.adjOf k).map Prod.fst

/-- `graph.add_node(k, **attrs)` as used by `createGraph`: the product call
sets every attribute key, the category/tag calls are guarded by
`not in graph.nodes`, so replacing the whole attribute record is faithful. -/
def Graph.addNode (g : Graph) (k : String) (a : NodeAttrs) : Graph :=
  { g with nodes := setAssoc g.nodes k a }

/-- One endpoint's adjacency update for `add_edge`: an existing entry for the
other endpoint gets its `relation` attribute overwritten in place, a new
neighbour is appended at the end (dict insertion order). -/
def updateRel : List (String × String) → String → String → List (String × String)
  | [], v, rel => [(v, rel)]
  | (w, r) :: rest, v, rel =>
    if w == v then (v, rel) :: rest else (w, r) :: updateRel rest v rel

/-- `graph.add_edge(u, v, relation=rel)`.  Both endpoints' adjacency lists are
updated (one shared entry for a self-loop).  In `createGraph` both endpoints
always exist as nodes before any `add_edge` call, so node creation by
`add_edge` needs no modelling. -/
def Graph.addEdge (g : Graph) (u v : String) (rel : String) : Graph :=
  if u == v then
    { g with adj := setAssoc g.adj u (updateRel (g.adjOf u) v rel) }
  else
    let adj1 := setAssoc g.adj u (updateRel (g.adjOf u) v rel)
    { g with adj := setAssoc adj1 v (updateRel (g.adjOf v) u rel) }

/-! ## Record ingestion (`createGraph`) -/

/-- One CSV row as handed to the loop body of `createGraph` by
`csv.DictReader`: all six fields are raw strings. -/
structure RawRecord where
  id : String
  category : String
  brand : String
  price : String
  stock : String
  tags : String
deriving DecidableEq, Repr

/-- The only exception the core can raise: `float()` on a non-numeric price
(Python `ValueError`).  The source defines no error class of its own. -/
inductive PyError where
  | valueError
deriving DecidableEq, Repr

def isPySpace (c : Char) : Bool :=
  c == ' ' || c == '\t' || c == '\n' || c == '\r' || c == '\x0b' || c == '\x0c'

/-- Python `str.strip()` on a character list (leading and trailing
whitespace removed); `float()` applies it to its argument. -/
def pyStrip (l : List Char) : List Char :=
  ((l.dropWhile isPySpace).reverse.dropWhile isPySpace).reverse

/-- Python `str.lower()` (the record fields are ASCII). -/
def pyLower (s : String) : String :=
  String.mk (s.toList.map (fun c =>
    if 'A' ≤ c && c ≤ 'Z' then Char.ofNat (c.toNat + 32) else c))

/-- Python `s.split(";")`: splitting with an explicit separator keeps empty
segments, and `"".split(";") == [""]`. -/
def splitSemiChars : List Char → List (List Char)
  | [] => [[]]
  | x :: xs =>
    match splitSemiChars xs with
    | [] => [[]]
    | h :: t => if x == ';' then [] :: h :: t else (x :: h) :: t

def pySplitSemi (s : String) : List String :=
  (splitSemiChars s.toList).map String.mk

def digitsToNat (l : List Char) : Nat :=
  l.foldl (fun n c => 10 * n + (c.toNat - 48)) 0

/-- `float(s)` on plain decimal literals: optional surrounding whitespace,
optional sign, digits with an optional single decimal point, at least one
digit overall.  Any other string is rejected (Python raises `ValueError`).
The value is exact (`Rat`); the decimals appearing in the product data are
small enough that float comparison agrees with rational comparison. -/
def pyFloat? (s : String) : Option Rat :=
  let cs := pyStrip s.toList
  let neg : Bool := match cs with | '-' :: _ => true | _ => false
  let body : List Char :=
    match cs with
    | '+' :: r => r
    | '-' :: r => r
    | r => r
  let intPart := body.takeWhile (fun c => c != '.')
  let rest := body.dropWhile (fun c => c != '.')
  let signed : Nat → Int := fun n => if neg then -(n : Int) else (n : Int)
  match rest with
  | [] =>
    if intPart ≠ [] ∧ intPart.all Char.isDigit then
      some (mkRat (signed (digitsToNat intPart)) 1)
    else none
  | _ :: frac =>
    if (intPart ≠ [] ∨ frac ≠ []) ∧ intPart.all Char.isDigit ∧ frac.all Char.isDigit then
      some (mkRat
        (signed (digitsToNat intPart * 10 ^ frac.length + digitsToNat frac))
        (10 ^ frac.length))
    else none

/-- Body of the tag loop of `createGraph`:
`if tag not in graph.nodes: graph.add_node(tag, type="tag")` followed by
`graph.add_edge(product_id, tag, relation="HAS TAG")`. -/
def tagStep (productId : String) (g : Graph) (tag : String) : Graph :=
  let g := if g.hasNode tag then g else g.addNode tag { type := NodeType.tag }
  g.addEdge productId tag "HAS TAG"

/-- One iteration of the row loop of `createGraph`: parse the row's fields
(`float(row["price"])` may raise), create the product node, ensure the
category node, add the `IS A` edge, then process the tags. -/
def processRow (g : Graph) (row : RawRecord) : Except PyError Graph :=
  match pyFloat? row.price with
  | none => Except.error PyError.valueError
  | some price =>
    let stock := pyLower row.stock == "true"
    let tags := pySplitSemi row.tags
    let g := g.addNode row.id
      { type := NodeType.product, brand := row.brand, category := row.category,
        price := price, stock := stock, tags := tags }
    let g := if g.hasNode row.category then g
             else g.addNode row.category { type := NodeType.category }
    let g := g.addEdge row.id row.category "IS A"
    Except.ok (tags.foldl (tagStep row.id) g)

/-- The row loop of `createGraph` from an intermediate graph; an exception
aborts the whole build. -/
def buildFrom (g : Graph) : List RawRecord → Except PyError Graph
  | [] => Except.ok g
  | row :: rest =>
    match processRow g row with
    | Except.error e => Except.error e
    | Except.ok g' => buildFrom g' rest

/-- `createGraph`, with the CSV rows already split into `RawRecord`s (the
`csv.DictReader` file handling is an external collaborator per the spec). -/
def createGraph (rows : List RawRecord) : Except PyError Graph :=
  buildFrom Graph.empty rows

/-! ## Traversal engine (`bfsSearch`) -/

/-- `nodeData.get("type") == "product"`: `.get` yields `None` when the key is
absent, and `None == "product"` is `False`. -/
def nodeTypeIsProduct (g : Graph) (node : String) : Bool :=
  match g.getNode node with
  | some a => a.type == NodeType.product
  | none => false

/-- The `while queue:` loop of `bfsSearch`, fuelled for termination.  A popped
node already in `visited` is skipped; otherwise it is marked visited,
appended to the output when it is a product other than the start, and its
not-yet-visited neighbours are pushed (duplicates may enter the queue). -/
def bfsLoop (g : Graph) (startProduct : String) :
    Nat → List String → List String → List String → List String
  | 0, _, _, productList => productList
  | _ + 1, [], _, productList => productList
  | fuel + 1, node :: rest, visited, productList =>
    if node ∈ visited then
      bfsLoop g startProduct fuel rest visited productList
    else
      let visited' := node :: visited
      let productList' :=
        if node != startProduct && nodeTypeIsProduct g node then
          productList ++ [node]
        else productList
      let rest' := rest ++ (g.neighborKeys node).filter (fun nb => !(visited'.contains nb))
      bfsLoop g startProduct fuel rest' visited' productList'

/-- Fuel bound: the loop pops one queue entry per iteration and the total
number of enqueues is at most 1 (the start) plus the sum of all adjacency
list lengths (each node is expanded at most once), so this fuel is never
exhausted before the queue empties. -/
def bfsFuel (g : Graph) : Nat :=
  2 + g.nodes.length + g.adj.foldl (fun n p => n + p.2.length) 0

def bfsSearch (g : Graph) (startProduct : String) : List String :=
  bfsLoop g startProduct (bfsFuel g) [startProduct] [] []

/-! ## Constraint filter, scorer, explainer -/

/-- `checkConstraints`.  `data["stock"] == 0` on a Python bool holds exactly
for `False`.  The requested-tag loop and the brand test mirror the source's
early returns. -/
def checkConstraints (g : Graph) (productId : String) (maxPrice : Rat)
    (requiredTags : List String) (preferredBrand : Option String) : Bool :=
  let data := (g.getNode productId).getD default
  if data.stock == false then false
  else if data.price > maxPrice then false
  else if !(requiredTags.all (fun tag => data.tags.contains tag)) then false
  else if (match preferredBrand with
           | some pb => pb != "" && data.brand != pb
           | none => false) then false
  else true

/-- `scoreCandidate`: +3 for an equal category, else +1 when the candidate's
category is among `graph.neighbors(requestedCategory)` (the `for`/`break`
loop is a membership test); +1 for an equal brand; +1 for a strictly lower
price. -/
def scoreCandidate (g : Graph) (requestedProduct candidateProduct : String) : Int :=
  let requestedData := (g.getNode requestedProduct).getD default
  let candidateData := (g.getNode candidateProduct).getD default
  let categoryScore : Int :=
    if requestedData.category == candidateData.category then 3
    else if (g.neighborKeys requestedData.category).contains candidateData.category then 1
    else 0
  categoryScore
    + (if requestedData.brand == candidateData.brand then 1 else 0)
    + (if candidateData.price < requestedData.price then 1 else 0)

/-- `explainRules`: category label, then conditionally `"All tags matched"`,
then conditionally `"Cheaper than original"`, then the brand label. -/
def explainRules (g : Graph) (requestedProduct candidateProduct : String)
    (requiredTags : List String) : List String :=
  let requestedData := (g.getNode requestedProduct).getD default
  let candidateData := (g.getNode candidateProduct).getD default
  let rules :=
    [if requestedData.category == candidateData.category then "Same Category"
     else "Similar Category"]
  let rules :=
    if requiredTags.all (fun tag => candidateData.tags.contains tag) then
      rules ++ ["All tags matched"]
    else rules
  let rules :=
    if candidateData.price < requestedData.price then
      rules ++ ["Cheaper than original"]
    else rules
  rules ++ [if candidateData.brand == requestedData.brand then "Same brand"
            else "Different brand"]

/-! ## Alternative finder (`findAlternatives`) -/

/-- A `(productId, score, rules)` 3-tuple of the normal result path. -/
structure Candidate where
  id : String
  score : Int
  rules : List String
deriving DecidableEq, Repr

/-- A result entry of `findAlternatives`.  `cand` is the 3-tuple
`(productId, score, rules)`; `exact` is the 4-tuple
`("EXACT_MATCH", requestedProduct, 999, ["product_in_stock"])` of the
in-stock path (one constructor per Python tuple shape). -/
inductive FAResult where
  | exact (marker : String) (id : String) (score : Int) (rules : List String)
  | cand (c : Candidate)
deriving DecidableEq, Repr

/-- Whether a result entry has the `(productId, score, rules)` 3-tuple shape
(the shape the Streamlit front end unpacks). -/
def FAResult.isTriple : FAResult → Bool
  | FAResult.cand _ => true
  | FAResult.exact _ _ _ _ => false

/-- Stable insertion of a candidate into a descending-by-score list: it goes
before the first entry whose score is not larger, so an earlier-discovered
candidate precedes equal-scored later ones. -/
def insertByScoreDesc (x : Candidate) : List Candidate → List Candidate
  | [] => [x]
  | y :: ys => if x.score < y.score then y :: insertByScoreDesc x ys else x :: y :: ys

/-- `validList.sort(key=lambda x: x[1], reverse=True)`: Python's sort is
stable (also under `reverse=True`), and every stable descending-by-score sort
computes this list. -/
def sortByScoreDesc (l : List Candidate) : List Candidate :=
  l.foldr insertByScoreDesc []

/-- The filter-and-score loop of `findAlternatives` building `validList` in
BFS discovery order. -/
def validList (g : Graph) (requestedProduct : String) (maxPrice : Rat)
    (requiredTags : List String) (preferredBrand : Option String) : List Candidate :=
  (bfsSearch g requestedProduct).filterMap (fun productId =>
    if checkConstraints g productId maxPrice requiredTags preferredBrand then
      some ⟨productId, scoreCandidate g requestedProduct productId,
            explainRules g requestedProduct productId requiredTags⟩
    else none)

def findAlternatives (g : Graph) (requestedProduct : String) (maxPrice : Rat)
    (requiredTags : List String) (preferredBrand : Option String) : List FAResult :=
  match g.getNode requestedProduct with
  | none => []
  | some reqData =>
    if reqData.stock then
      [FAResult.exact "EXACT_MATCH" requestedProduct 999 ["product_in_stock"]]
    else
      ((sortByScoreDesc
          (validList g requestedProduct maxPrice requiredTags preferredBrand)).take 3).map
        FAResult.cand

/-! ## Auxiliary notions used by the statements -/

/-- First-occurrence deduplication with an explicit accumulator; mirrors the
effect of repeated `add_edge` calls on one adjacency list. -/
def dedupAcc (acc : List String) (l : List String) : List String :=
  l.foldl (fun a t => if a.contains t then a else a ++ [t]) acc

/-- The distinct tokens of a list, first occurrences first. -/
def dedupFirst (l : List String) : List String :=
  dedupAcc [] l

/-- The node keys a row's ingestion writes to: its id, its category and its
tag tokens. -/
def touches (r : RawRecord) (p : String) : Prop :=
  p = r.id ∨ p = r.category ∨ p ∈ pySplitSemi r.tags

instance (r : RawRecord) (p : String) : Decidable (touches r p) := by
  unfold touches; infer_instance

/-! ## Concrete data for the spec scenario and for witnesses -/

def rowA : RawRecord := ⟨"A", "shoes", "X", "50", "false", "running"⟩
def rowB : RawRecord := ⟨"B", "shoes", "X", "40", "true", "running;light"⟩
def rowC : RawRecord := ⟨"C", "shoes", "Y", "60", "true", "running"⟩

def scenarioRows : List RawRecord := [rowA, rowB, rowC]

def scenarioGraph : Graph :=
  (createGraph scenarioRows).toOption.getD Graph.empty

/-- Two products in different categories, used to exercise the
similar-category dimension of the scorer. -/
def twoCatRows : List RawRecord :=
  [⟨"p1", "c1", "bX", "10", "true", "t1"⟩, ⟨"p2", "c2", "bX", "20", "true", "t2"⟩]

def twoCatGraph : Graph :=
  (createGraph twoCatRows).toOption.getD Graph.empty

/-- A record whose raw tags field has untrimmed and empty `;`-tokens. -/
def rawRow : RawRecord := ⟨"p", "c", "b", "10", "true", "running; light;"⟩

def rawRowGraph : Graph := (processRow Graph.empty rawRow).toOption.getD Graph.empty

/-- A record with a non-numeric price field. -/
def badPriceRow : RawRecord := ⟨"q", "c", "b", "abc", "true", "t"⟩

/-- A record whose stock field is not a recognised boolean token. -/
def badStockRow : RawRecord := ⟨"p", "c", "b", "10", "maybe", "t"⟩

/-! ## General lemmas about the stable sort and the BFS loop -/

theorem mem_insertByScoreDesc (x y : Candidate) (l : List Candidate) :
    y ∈ insertByScoreDesc x l ↔ y = x ∨ y ∈ l := by
  induction l with
  | nil => simp [insertByScoreDesc]
  | cons z zs ih =>
    simp only [insertByScoreDesc]
    split
    · rw [List.mem_cons, ih, List.mem_cons]; tauto
    · exact List.mem_cons

theorem pairwise_insertByScoreDesc (x : Candidate) (l : List Candidate)
    (h : l.Pairwise (fun a b => b.score ≤ a.score)) :
    (insertByScoreDesc x l).Pairwise (fun a b => b.score ≤ a.score) := by
  induction l with
  | nil => simp [insertByScoreDesc]
  | cons z zs ih =>
    rw [List.pairwise_cons] at h
    obtain ⟨hz, hzs⟩ := h
    simp only [insertByScoreDesc]
    split
    · rename_i hlt
      rw [List.pairwise_cons]
      refine ⟨?_, ih hzs⟩
      intro y hy
      rcases (mem_insertByScoreDesc x y zs).mp hy with rfl | hmem
      · exact le_of_lt hlt
      · exact hz y hmem
    · rename_i hnlt
      rw [List.pairwise_cons]
      refine ⟨?_, List.Pairwise.cons hz hzs⟩
      intro y hy
      rcases List.mem_cons.mp hy with rfl | hmem
      · exact not_lt.mp hnlt
      · exact le_trans (hz y hmem) (not_lt.mp hnlt)

theorem filter_insertByScoreDesc (x : Candidate) (l : List Candidate) (n : Int) :
    (insertByScoreDesc x l).filter (fun c => c.score == n) =
      (if x.score == n then [x] else []) ++ l.filter (fun c => c.score == n) := by
  induction l with
  | nil => simp [insertByScoreDesc, List.filter_cons]
  | cons z zs ih =>
    simp only [insertByScoreDesc]
    split
    · rename_i hlt
      rw [List.filter_cons, List.filter_cons, ih]
      by_cases hz : (z.score == n) = true
      · by_cases hx : (x.score == n) = true
        · exfalso
          rw [beq_iff_eq] at hz hx
          omega
        · simp [hz, hx]
      · simp [hz]
    · rw [List.filter_cons, List.filter_cons]
      by_cases hx : (x.score == n) = true <;> simp [hx]

/-- Stability of the embedded sort: the candidates of any fixed score keep
their relative input order. -/
theorem filter_sortByScoreDesc (l : List Candidate) (n : Int) :
    (sortByScoreDesc l).filter (fun c => c.score == n) =
      l.filter (fun c => c.score == n) := by
  induction l with
  | nil => rfl
  | cons x xs ih =>
    simp only [sortByScoreDesc, List.foldr_cons] at *
    rw [filter_insertByScoreDesc, ih, List.filter_cons]
    by_cases h : (x.score == n) = true <;> simp [h]

theorem pairwise_sortByScoreDesc (l : List Candidate) :
    (sortByScoreDesc l).Pairwise (fun a b => b.score ≤ a.score) := by
  induction l with
  | nil => exact List.Pairwise.nil
  | cons x xs ih => exact pairwise_insertByScoreDesc x _ ih

/-- The BFS output accumulator stays duplicate-free: a product id is appended
only when popped unvisited, and it is marked visited at that moment. -/
theorem bfsLoop_nodup (g : Graph) (startProduct : String) :
    ∀ (fuel : Nat) (queue visited acc : List String),
      acc.Nodup → (∀ x ∈ acc, x ∈ visited) →
      (bfsLoop g startProduct fuel queue visited acc).Nodup := by
  intro fuel
  induction fuel with
  | zero => intro queue visited acc h _; simpa [bfsLoop] using h
  | succ n ih =>
    intro queue visited acc hnd hsub
    match queue with
    | [] => simpa [bfsLoop] using hnd
    | node :: rest =>
      simp only [bfsLoop]
      by_cases hv : node ∈ visited
      · rw [if_pos hv]; exact ih rest visited acc hnd hsub
      · rw [if_neg hv]
        apply ih
        · by_cases hp : (node != startProduct && nodeTypeIsProduct g node) = true
          · rw [if_pos hp]
            rw [List.nodup_append]
            refine ⟨hnd, List.nodup_singleton _, ?_⟩
            intro a ha hb
            rw [List.mem_singleton] at hb
            subst hb
            exact hv (hsub a ha)
          · rw [if_neg hp]; exact hnd
        · intro x hx
          by_cases hp : (node != startProduct && nodeTypeIsProduct g node) = true
          · rw [if_pos hp] at hx
            rcases List.mem_append.mp hx with h1 | h1
            · exact List.mem_cons_of_mem _ (hsub x h1)
            · rw [List.mem_singleton] at h1; subst h1; exact List.mem_cons_self _ _
          · rw [if_neg hp] at hx
            exact List.mem_cons_of_mem _ (hsub x hx)

/-! ## Lemmas about the graph primitives -/

theorem lookupA_setAssoc_self {α : Type} (l : List (String × α)) (k : String) (v : α) :
    lookupA (setAssoc l k v) k = some v := by
  induction l with
  | nil => simp [setAssoc, lookupA]
  | cons p rest ih =>
    obtain ⟨k', v'⟩ := p
    by_cases h : k' = k
    · subst h; simp [setAssoc, lookupA]
    · simp [setAssoc, lookupA, h, ih]

theorem lookupA_setAssoc_ne {α : Type} (l : List (String × α)) (k k' : String) (v : α)
    (h : k' ≠ k) : lookupA (setAssoc l k v) k' = lookupA l k' := by
  induction l with
  | nil =>
    simp [setAssoc, lookupA]
    exact fun hh => h hh.symm
  | cons p rest ih =>
    obtain ⟨k0, v0⟩ := p
    by_cases h0 : k0 = k
    · subst h0
      have : ¬ (k0 == k') = true := by simpa using fun hh => h hh.symm
      simp [setAssoc, lookupA, this, h]
    · by_cases h1 : k0 = k'
      · subst h1; simp [setAssoc, lookupA, h0]
      · simp [setAssoc, lookupA, h0, h1, ih]

theorem getNode_addNode_self (g : Graph) (k : String) (a : NodeAttrs) :
    (g.addNode k a).getNode k = some a := lookupA_setAssoc_self _ _ _

theorem getNode_addNode_ne (g : Graph) (k k' : String) (a : NodeAttrs) (h : k' ≠ k) :
    (g.addNode k a).getNode k' = g.getNode k' := lookupA_setAssoc_ne _ _ _ _ h

theorem adjOf_addNode (g : Graph) (k p : String) (a : NodeAttrs) :
    (g.addNode k a).adjOf p = g.adjOf p := rfl

theorem hasNode_addNode_self (g : Graph) (k : String) (a : NodeAttrs) :
    (g.addNode k a).hasNode k = true := by
  simp [Graph.hasNode, getNode_addNode_self]

theorem hasNode_addNode_of (g : Graph) (k k' : String) (a : NodeAttrs)
    (h : g.hasNode k' = true) : (g.addNode k a).hasNode k' = true := by
  by_cases hk : k' = k
  · subst hk; exact hasNode_addNode_self g k' a
  · rw [Graph.hasNode, getNode_addNode_ne _ _ _ _ hk]; exact h

theorem getNode_addEdge (g : Graph) (u v rel k : String) :
    (g.addEdge u v rel).getNode k = g.getNode k := by
  unfold Graph.addEdge
  split <;> rfl

theorem hasNode_addEdge (g : Graph) (u v rel k : String) :
    (g.addEdge u v rel).hasNode k = g.hasNode k := by
  rw [Graph.hasNode, getNode_addEdge]; rfl

theorem adjOf_addEdge_ne (g : Graph) (u v rel p : String) (h1 : p ≠ u) (h2 : p ≠ v) :
    (g.addEdge u v rel).adjOf p = g.adjOf p := by
  unfold Graph.addEdge
  split
  · show (lookupA (setAssoc g.adj u _) p).getD [] = _
    rw [lookupA_setAssoc_ne _ _ _ _ h1]; rfl
  · show (lookupA (setAssoc (setAssoc g.adj u _) v _) p).getD [] = _
    rw [lookupA_setAssoc_ne _ _ _ _ h2, lookupA_setAssoc_ne _ _ _ _ h1]; rfl

theorem adjOf_addEdge_left (g : Graph) (u v rel : String) (h : u ≠ v) :
    (g.addEdge u v rel).adjOf u = updateRel (g.adjOf u) v rel := by
  unfold Graph.addEdge
  rw [if_neg (by simpa using h)]
  show (lookupA (setAssoc (setAssoc g.adj u _) v _) u).getD [] = _
  rw [lookupA_setAssoc_ne _ _ _ _ h, lookupA_setAssoc_self]
  rfl

theorem adjOf_addEdge_self (g : Graph) (u rel : String) :
    (g.addEdge u u rel).adjOf u = updateRel (g.adjOf u) u rel := by
  unfold Graph.addEdge
  rw [if_pos (by simp)]
  show (lookupA (setAssoc g.adj u _) u).getD [] = _
  rw [lookupA_setAssoc_self]
  rfl

theorem mem_updateRel_self (l : List (String × String)) (v rel : String) :
    (v, rel) ∈ updateRel l v rel := by
  induction l with
  | nil => simp [updateRel]
  | cons p rest ih =>
    obtain ⟨w, r⟩ := p
    by_cases h : w = v
    · subst h; simp [updateRel]
    · simp only [updateRel]
      rw [if_neg (by simpa using h)]
      exact List.mem_cons_of_mem _ ih

theorem mem_updateRel_of_ne (l : List (String × String)) (v rel w r0 : String)
    (hm : (w, r0) ∈ l) (h : w ≠ v) : (w, r0) ∈ updateRel l v rel := by
  induction l with
  | nil => cases hm
  | cons p rest ih =>
    obtain ⟨w1, r1⟩ := p
    by_cases h1 : w1 = v
    · subst h1
      simp only [updateRel]
      rw [if_pos (by simp)]
      rcases List.mem_cons.mp hm with heq | hmem
      · exact absurd (congrArg Prod.fst heq) h
      · exact List.mem_cons_of_mem _ hmem
    · simp only [updateRel]
      rw [if_neg (by simpa using h1)]
      rcases List.mem_cons.mp hm with heq | hmem
      · rw [heq]; exact List.mem_cons_self _ _
      · exact List.mem_cons_of_mem _ (ih hmem)

theorem updateRel_cons_ne (w r v rel : String) (l : List (String × String)) (h : w ≠ v) :
    updateRel ((w, r) :: l) v rel = (w, r) :: updateRel l v rel := by
  simp [updateRel, h]

theorem updateRel_map_const_mem (acc : List String) (t R : String) (h : t ∈ acc) :
    updateRel (acc.map (fun s => (s, R))) t R = acc.map (fun s => (s, R)) := by
  induction acc with
  | nil => cases h
  | cons a rest ih =>
    by_cases ha : a = t
    · subst ha; simp [updateRel]
    · rcases List.mem_cons.mp h with h1 | h1
      · exact absurd h1.symm ha
      · simp only [List.map_cons, updateRel_cons_ne _ _ _ _ _ ha, ih h1]

theorem updateRel_map_const_not_mem (acc : List String) (t R : String) (h : t ∉ acc) :
    updateRel (acc.map (fun s => (s, R))) t R = (acc ++ [t]).map (fun s => (s, R)) := by
  induction acc with
  | nil => simp [updateRel]
  | cons a rest ih =>
    have ha : a ≠ t := fun hh => h (hh ▸ List.mem_cons_self _ _)
    have h2 : t ∉ rest := fun hh => h (List.mem_cons_of_mem _ hh)
    simp only [List.map_cons, updateRel_cons_ne _ _ _ _ _ ha, ih h2, List.cons_append]

/-! ## Lemmas about row ingestion -/

theorem tagStep_adjOf_pre (tag p : String) (g : Graph) :
    ((if g.hasNode tag then g else g.addNode tag { type := NodeType.tag }) : Graph).adjOf p =
      g.adjOf p := by
  split <;> rfl

theorem tagStep_getNode (pid t k : String) (g : Graph) (a : NodeAttrs)
    (h : g.getNode k = some a) : (tagStep pid g t).getNode k = some a := by
  unfold tagStep
  rw [getNode_addEdge]
  split
  · exact h
  · rename_i ht
    have hk : k ≠ t := by
      intro hh
      subst hh
      rw [Graph.hasNode, h] at ht
      simp at ht
    rw [getNode_addNode_ne _ _ _ _ hk]
    exact h

theorem tagFold_getNode (pid : String) (tags : List String) (g : Graph) (k : String)
    (a : NodeAttrs) (h : g.getNode k = some a) :
    (tags.foldl (tagStep pid) g).getNode k = some a := by
  induction tags generalizing g with
  | nil => exact h
  | cons t rest ih => exact ih _ (tagStep_getNode pid t k g a h)

theorem tagStep_hasNode_self (pid : String) (g : Graph) (t : String) :
    (tagStep pid g t).hasNode t = true := by
  unfold tagStep
  rw [hasNode_addEdge]
  split
  · assumption
  · exact hasNode_addNode_self _ _ _

theorem tagStep_mem_edge_self (pid : String) (g : Graph) (t : String) :
    (t, "HAS TAG") ∈ (tagStep pid g t).adjOf pid := by
  unfold tagStep
  by_cases hpt : pid = t
  · subst hpt
    rw [adjOf_addEdge_self]
    exact mem_updateRel_self _ _ _
  · rw [adjOf_addEdge_left _ _ _ _ hpt]
    exact mem_updateRel_self _ _ _

theorem tagStep_preserves (pid : String) (g : Graph) (t t' : String)
    (h1 : g.hasNode t = true) (h2 : (t, "HAS TAG") ∈ g.adjOf pid) :
    (tagStep pid g t').hasNode t = true ∧ (t, "HAS TAG") ∈ (tagStep pid g t').adjOf pid := by
  constructor
  · unfold tagStep
    rw [hasNode_addEdge]
    split
    · exact h1
    · exact hasNode_addNode_of _ _ _ _ h1
  · unfold tagStep
    by_cases hpt : pid = t'
    · subst hpt
      rw [adjOf_addEdge_self, tagStep_adjOf_pre pid pid]
      by_cases htt : t = pid
      · subst htt; exact mem_updateRel_self _ _ _
      · exact mem_updateRel_of_ne _ _ _ _ _ h2 htt
    · rw [adjOf_addEdge_left _ _ _ _ hpt, tagStep_adjOf_pre t' pid]
      by_cases htt : t = t'
      · subst htt; exact mem_updateRel_self _ _ _
      · exact mem_updateRel_of_ne _ _ _ _ _ h2 htt

theorem tagFold_mem (pid : String) (tags : List String) (g : Graph) (t : String)
    (h : t ∈ tags ∨ (g.hasNode t = true ∧ (t, "HAS TAG") ∈ g.adjOf pid)) :
    (tags.foldl (tagStep pid) g).hasNode t = true ∧
      (t, "HAS TAG") ∈ (tags.foldl (tagStep pid) g).adjOf pid := by
  induction tags generalizing g with
  | nil =>
    rcases h with h | h
    · cases h
    · exact h
  | cons t0 rest ih =>
    rcases h with h | h
    · rcases List.mem_cons.mp h with rfl | hmem
      · exact ih _ (Or.inr ⟨tagStep_hasNode_self pid g t, tagStep_mem_edge_self pid g t⟩)
      · exact ih _ (Or.inl hmem)
    · exact ih _ (Or.inr (tagStep_preserves pid g t t0 h.1 h.2))

theorem processRow_error (g : Graph) (r : RawRecord) (h : pyFloat? r.price = none) :
    processRow g r = Except.error PyError.valueError := by
  simp [processRow, h]

theorem processRow_ok_exists (g : Graph) (r : RawRecord) (v : Rat)
    (hv : pyFloat? r.price = some v) : ∃ g', processRow g r = Except.ok g' := by
  simp [processRow, hv]

theorem processRow_getNode_id (g : Graph) (r : RawRecord) (g' : Graph) (v : Rat)
    (hv : pyFloat? r.price = some v) (hok : processRow g r = Except.ok g') :
    g'.getNode r.id = some ⟨NodeType.product, r.brand, r.category, v,
      pyLower r.stock == "true", pySplitSemi r.tags⟩ := by
  simp only [processRow, hv, Except.ok.injEq] at hok
  subst hok
  apply tagFold_getNode
  rw [getNode_addEdge]
  split
  · exact getNode_addNode_self _ _ _
  · rename_i hcat
    by_cases hc : r.id = r.category
    · exfalso
      apply hcat
      rw [← hc]
      exact hasNode_addNode_self _ _ _
    · rw [getNode_addNode_ne _ _ _ _ hc]
      exact getNode_addNode_self _ _ _

theorem buildFrom_ok_iff (rows : List RawRecord) : ∀ g : Graph,
    (∃ g', buildFrom g rows = Except.ok g') ↔
      ∀ r ∈ rows, (pyFloat? r.price).isSome = true := by
  induction rows with
  | nil => intro g; simp [buildFrom]
  | cons r rest ih =>
    intro g
    constructor
    · rintro ⟨g', hg⟩
      unfold buildFrom at hg
      cases hpr : processRow g r with
      | error e => rw [hpr] at hg; cases hg
      | ok g1 =>
        rw [hpr] at hg
        intro r' hr'
        rcases List.mem_cons.mp hr' with rfl | hmem
        · cases hv : pyFloat? r'.price with
          | none => rw [processRow_error g r' hv] at hpr; cases hpr
          | some v => simp
        · exact (ih g1).mp ⟨g', hg⟩ r' hmem
    · intro hall
      obtain ⟨v, hv⟩ := Option.isSome_iff_exists.mp (hall r (List.mem_cons_self _ _))
      obtain ⟨g1, hg1⟩ := processRow_ok_exists g r v hv
      obtain ⟨g', hg'⟩ := (ih g1).mpr (fun r' hr' => hall r' (List.mem_cons_of_mem _ hr'))
      refine ⟨g', ?_⟩
      unfold buildFrom
      rw [hg1]
      exact hg'

theorem tagFold_adj_untouched (pid p : String) (tags : List String) (hp : p ≠ pid) :
    ∀ g : Graph, (∀ t ∈ tags, p ≠ t) →
      (tags.foldl (tagStep pid) g).adjOf p = g.adjOf p := by
  induction tags with
  | nil => intro g _; rfl
  | cons t0 rest ih =>
    intro g hall
    have h0 : p ≠ t0 := hall t0 (List.mem_cons_self _ _)
    have hrest : ∀ t ∈ rest, p ≠ t := fun t ht => hall t (List.mem_cons_of_mem _ ht)
    show (rest.foldl (tagStep pid) (tagStep pid g t0)).adjOf p = g.adjOf p
    rw [ih _ hrest]
    unfold tagStep
    rw [adjOf_addEdge_ne _ _ _ _ _ hp h0, tagStep_adjOf_pre t0 p]

theorem processRow_adj_untouched (g : Graph) (r : RawRecord) (g' : Graph) (p : String)
    (hok : processRow g r = Except.ok g') (h : ¬ touches r p) :
    g'.adjOf p = g.adjOf p := by
  unfold touches at h
  push_neg at h
  obtain ⟨h1, h2, h3⟩ := h
  cases hv : pyFloat? r.price with
  | none => rw [processRow_error g r hv] at hok; cases hok
  | some v =>
    simp only [processRow, hv, Except.ok.injEq] at hok
    subst hok
    rw [tagFold_adj_untouched r.id p _ h1 _ (fun t ht => fun hh => h3 (hh ▸ ht)),
      adjOf_addEdge_ne _ _ _ _ _ h1 h2]
    split <;> rfl

theorem buildFrom_adj_untouched (rows : List RawRecord) :
    ∀ (g g' : Graph) (p : String), buildFrom g rows = Except.ok g' →
      (∀ r ∈ rows, ¬ touches r p) → g'.adjOf p = g.adjOf p := by
  induction rows with
  | nil =>
    intro g g' p h _
    simp only [buildFrom, Except.ok.injEq] at h
    subst h
    rfl
  | cons r rest ih =>
    intro g g' p h hall
    unfold buildFrom at h
    cases hpr : processRow g r with
    | error e => rw [hpr] at h; cases h
    | ok g1 =>
      rw [hpr] at h
      rw [ih g1 g' p h (fun r' hr' => hall r' (List.mem_cons_of_mem _ hr'))]
      exact processRow_adj_untouched g r g1 p hpr (hall r (List.mem_cons_self _ _))

theorem buildFrom_append (l1 l2 : List RawRecord) : ∀ g : Graph,
    buildFrom g (l1 ++ l2) =
      match buildFrom g l1 with
      | Except.ok g' => buildFrom g' l2
      | Except.error e => Except.error e := by
  induction l1 with
  | nil => intro g; rfl
  | cons r rest ih =>
    intro g
    show buildFrom g (r :: (rest ++ l2)) = _
    cases hpr : processRow g r with
    | error e => simp only [buildFrom, hpr]
    | ok g1 =>
      simp only [buildFrom, hpr]
      exact ih g1

theorem dedupAcc_nodup (l : List String) : ∀ acc : List String,
    acc.Nodup → (dedupAcc acc l).Nodup := by
  induction l with
  | nil => intro acc h; exact h
  | cons t rest ih =>
    intro acc h
    show (dedupAcc (if acc.contains t then acc else acc ++ [t]) rest).Nodup
    by_cases hm : acc.contains t = true
    · rw [if_pos hm]; exact ih acc h
    · rw [if_neg hm]
      apply ih
      rw [List.nodup_append]
      refine ⟨h, List.nodup_singleton _, ?_⟩
      intro a ha hb
      rw [List.mem_singleton] at hb
      subst hb
      exact hm (by simpa [List.contains, List.elem_iff] using ha)

theorem dedupFirst_nodup (l : List String) : (dedupFirst l).Nodup :=
  dedupAcc_nodup l [] List.nodup_nil

theorem tagFold_adj (pid cat : String) (tags : List String) :
    ∀ (g : Graph) (acc : List String),
      g.adjOf pid = (cat, "IS A") :: acc.map (fun t => (t, "HAS TAG")) →
      (∀ t ∈ tags, t ≠ cat ∧ t ≠ pid) →
      (tags.foldl (tagStep pid) g).adjOf pid =
        (cat, "IS A") :: (dedupAcc acc tags).map (fun t => (t, "HAS TAG")) := by
  induction tags with
  | nil => intro g acc h _; exact h
  | cons t0 rest ih =>
    intro g acc hadj hcond
    obtain ⟨hc1, hc2⟩ := hcond t0 (List.mem_cons_self _ _)
    have hstep : (tagStep pid g t0).adjOf pid =
        (cat, "IS A") ::
          ((if acc.contains t0 then acc else acc ++ [t0]).map (fun t => (t, "HAS TAG"))) := by
      unfold tagStep
      rw [adjOf_addEdge_left _ _ _ _ (Ne.symm hc2), tagStep_adjOf_pre t0 pid, hadj,
        updateRel_cons_ne _ _ _ _ _ (Ne.symm hc1)]
      by_cases hm : t0 ∈ acc
      · rw [if_pos (by simpa [List.contains, List.elem_iff] using hm),
          updateRel_map_const_mem _ _ _ hm]
      · rw [if_neg (by simpa [List.contains, List.elem_iff] using hm),
          updateRel_map_const_not_mem _ _ _ hm]
    show (rest.foldl (tagStep pid) (tagStep pid g t0)).adjOf pid = _
    rw [ih _ _ hstep (fun t ht => hcond t (List.mem_cons_of_mem _ ht))]
    rfl

theorem processRow_adj_fresh (g : Graph) (r : RawRecord) (g' : Graph)
    (hok : processRow g r = Except.ok g')
    (hadj : g.adjOf r.id = [])
    (hc : r.id ≠ r.category)
    (ht : r.id ∉ pySplitSemi r.tags)
    (hct : r.category ∉ pySplitSemi r.tags) :
    g'.adjOf r.id = (r.category, "IS A") ::
      (dedupFirst (pySplitSemi r.tags)).map (fun t => (t, "HAS TAG")) := by
  cases hv : pyFloat? r.price with
  | none => rw [processRow_error g r hv] at hok; cases hok
  | some v =>
    simp only [processRow, hv, Except.ok.injEq] at hok
    subst hok
    have hbase : ((if ((g.addNode r.id
          { type := NodeType.product, brand := r.brand, category := r.category, price := v,
            stock := pyLower r.stock == "true", tags := pySplitSemi r.tags }).hasNode
            r.category) = true then
          g.addNode r.id
            { type := NodeType.product, brand := r.brand, category := r.category, price := v,
              stock := pyLower r.stock == "true", tags := pySplitSemi r.tags }
        else
          (g.addNode r.id
            { type := NodeType.product, brand := r.brand, category := r.category, price := v,
              stock := pyLower r.stock == "true",
              tags := pySplitSemi r.tags }).addNode r.category
            { type := NodeType.category }) : Graph).adjOf r.id = [] := by
      split <;> exact hadj
    rw [tagFold_adj r.id r.category (pySplitSemi r.tags) _ []
      (by
        rw [adjOf_addEdge_left _ _ _ _ hc, hbase]
        rfl)
      (fun t htin => ⟨fun hh => hct (hh ▸ htin), fun hh => ht (hh ▸ htin)⟩)]
    rfl

theorem filter_isA_map_hasTag (l : List String) :
    (l.map (fun t => (t, "HAS TAG"))).filter (fun e => e.2 == "IS A") = [] := by
  induction l with
  | nil => rfl
  | cons a rest ih => simp [List.filter_cons, ih]

theorem map_fst_pair_hasTag (l : List String) :
    (l.map (fun t => (t, "HAS TAG"))).map Prod.fst = l := by
  induction l with
  | nil => rfl
  | cons a rest ih => simp [ih]

theorem filter_hasTag_map_hasTag (l : List String) :
    (l.map (fun t => (t, "HAS TAG"))).filter (fun e => e.2 == "HAS TAG") =
      l.map (fun t => (t, "HAS TAG")) := by
  induction l with
  | nil => rfl
  | cons a rest ih => simp [List.filter_cons, ih]

/-! ## Claim C1 -/

/-- C1: on the graph built from exactly the records A, B, C of the spec
scenario, `findAlternatives(A, maxPrice=100, requiredTags={"running"},
preferredBrand=None)` returns B first with score 5 and rules
`["Same Category", "All tags matched", "Cheaper than original", "Same brand"]`,
and C second with score 3. -/
theorem findAlternatives_scenario :
    (createGraph scenarioRows).map (fun g => findAlternatives g "A" 100 ["running"] none) =
      Except.ok
        [FAResult.cand
           ⟨"B", 5, ["Same Category", "All tags matched", "Cheaper than original", "Same brand"]⟩,
         FAResult.cand ⟨"C", 3, ["Same Category", "All tags matched", "Different brand"]⟩] := by
  rfl

/-! ## Claim C2 -/

/-- C2: when the categories of the requested and candidate products differ,
`scoreCandidate` adds 1 for the category dimension exactly when the requested
product's category node has a direct edge to the candidate's category node
(membership in its neighbour list), and 0 otherwise, on top of the
independent brand and price terms. -/
theorem scoreCandidate_category_dimension (g : Graph)
    (requestedProduct candidateProduct : String) (rd cd : NodeAttrs)
    (hr : g.getNode requestedProduct = some rd)
    (hc : g.getNode candidateProduct = some cd) (hne : rd.category ≠ cd.category) :
    scoreCandidate g requestedProduct candidateProduct =
      (if cd.category ∈ g.neighborKeys rd.category then 1 else 0)
        + (if rd.brand = cd.brand then 1 else 0)
        + (if cd.price < rd.price then 1 else 0) := by
  simp only [scoreCandidate, hr, hc, Option.getD_some, List.contains, beq_iff_eq,
    List.elem_iff, if_neg hne]

theorem scoreCandidate_category_dimension_witness :
    scoreCandidate twoCatGraph "p1" "p2" =
      (if "c2" ∈ twoCatGraph.neighborKeys "c1" then 1 else 0)
        + (if "bX" = "bX" then 1 else 0) + (if (20 : Rat) < 10 then 1 else 0) :=
  scoreCandidate_category_dimension twoCatGraph "p1" "p2"
    ⟨NodeType.product, "bX", "c1", 10, true, ["t1"]⟩
    ⟨NodeType.product, "bX", "c2", 20, true, ["t2"]⟩ (by decide) (by decide) (by decide)

/-! ## Claim C3 -/

/-- C3 counterexample: the in-stock sentinel is not an id/score/explanation
3-tuple — it is the 4-tuple `("EXACT_MATCH", id, 999, ["product_in_stock"])`,
whose leading marker component is extra to id/score/explanation (the Streamlit
front end's 3-tuple unpacking would fail on it). -/
theorem findAlternatives_sentinel_quadruple :
    (createGraph scenarioRows).map (fun g => findAlternatives g "B" 100 [] none) =
      Except.ok [FAResult.exact "EXACT_MATCH" "B" 999 ["product_in_stock"]] ∧
    (FAResult.exact "EXACT_MATCH" "B" 999 ["product_in_stock"]).isTriple = false :=
  ⟨rfl, rfl⟩

/-- C3 (amended): `findAlternatives` returns the empty list when the requested
id is absent, and when the requested product is present and in stock it
returns the single sentinel 4-tuple
`("EXACT_MATCH", id, 999, ["product_in_stock"])`, short-circuiting traversal,
filtering, scoring and ranking. -/
theorem findAlternatives_unknown_and_instock (g : Graph) (requestedProduct : String)
    (maxPrice : Rat) (requiredTags : List String) (preferredBrand : Option String) :
    (g.getNode requestedProduct = none →
      findAlternatives g requestedProduct maxPrice requiredTags preferredBrand = []) ∧
    (∀ d : NodeAttrs, g.getNode requestedProduct = some d → d.stock = true →
      findAlternatives g requestedProduct maxPrice requiredTags preferredBrand =
        [FAResult.exact "EXACT_MATCH" requestedProduct 999 ["product_in_stock"]]) := by
  constructor
  · intro h; simp [findAlternatives, h]
  · intro d hd hs; simp [findAlternatives, hd, hs]

theorem findAlternatives_unknown_and_instock_witness :
    findAlternatives scenarioGraph "Z" 100 [] none = [] ∧
    findAlternatives scenarioGraph "B" 100 [] none =
      [FAResult.exact "EXACT_MATCH" "B" 999 ["product_in_stock"]] :=
  ⟨(findAlternatives_unknown_and_instock scenarioGraph "Z" 100 [] none).1 (by decide),
   (findAlternatives_unknown_and_instock scenarioGraph "B" 100 [] none).2
     ⟨NodeType.product, "X", "shoes", 40, true, ["running", "light"]⟩ (by decide) rfl⟩

/-! ## Claim C4 -/

/-- C4 counterexample: an explanation with exactly 2 entries (required tag
`"light"` missing from the candidate and candidate not cheaper), refuting
"exactly 3 or 4 entries". -/
theorem explainRules_two_entries :
    (createGraph scenarioRows).map (fun g => explainRules g "B" "A" ["light"]) =
      Except.ok ["Same Category", "Same brand"] ∧
    (["Same Category", "Same brand"] : List String).length = 2 :=
  ⟨rfl, rfl⟩

/-- C4 (amended): `explainRules` always yields, in fixed order, a category
label, then `"All tags matched"` exactly when every required tag is among the
candidate's tags, then `"Cheaper than original"` exactly when the candidate's
price is strictly lower, then a brand label; hence 2, 3 or 4 entries (the
spec's "always 3 or 4" misses the 2-entry case). -/
theorem explainRules_shape (g : Graph) (requestedProduct candidateProduct : String)
    (requiredTags : List String) :
    explainRules g requestedProduct candidateProduct requiredTags =
      [if ((g.getNode requestedProduct).getD default).category ==
          ((g.getNode candidateProduct).getD default).category then "Same Category"
       else "Similar Category"]
      ++ (if requiredTags.all
              (fun tag => ((g.getNode candidateProduct).getD default).tags.contains tag)
          then ["All tags matched"] else [])
      ++ (if ((g.getNode candidateProduct).getD default).price <
             ((g.getNode requestedProduct).getD default).price
          then ["Cheaper than original"] else [])
      ++ [if ((g.getNode candidateProduct).getD default).brand ==
             ((g.getNode requestedProduct).getD default).brand then "Same brand"
          else "Different brand"]
    ∧ 2 ≤ (explainRules g requestedProduct candidateProduct requiredTags).length
    ∧ (explainRules g requestedProduct candidateProduct requiredTags).length ≤ 4 := by
  have E : explainRules g requestedProduct candidateProduct requiredTags =
      [if ((g.getNode requestedProduct).getD default).category ==
          ((g.getNode candidateProduct).getD default).category then "Same Category"
       else "Similar Category"]
      ++ (if requiredTags.all
              (fun tag => ((g.getNode candidateProduct).getD default).tags.contains tag)
          then ["All tags matched"] else [])
      ++ (if ((g.getNode candidateProduct).getD default).price <
             ((g.getNode requestedProduct).getD default).price
          then ["Cheaper than original"] else [])
      ++ [if ((g.getNode candidateProduct).getD default).brand ==
             ((g.getNode requestedProduct).getD default).brand then "Same brand"
          else "Different brand"] := by
    by_cases h1 : ((g.getNode requestedProduct).getD default).category =
        ((g.getNode candidateProduct).getD default).category <;>
    by_cases h3 : ((g.getNode candidateProduct).getD default).price <
        ((g.getNode requestedProduct).getD default).price <;>
    by_cases h4 : ((g.getNode candidateProduct).getD default).brand =
        ((g.getNode requestedProduct).getD default).brand <;>
    (simp [explainRules, h1, h3, h4]; try (split_ifs <;> simp))
  refine ⟨E, ?_, ?_⟩ <;> (rw [E]; split_ifs <;> simp)

/-! ## Claim C7 -/

/-- C7: `checkConstraints` accepts a product exactly when it is in stock, its
price does not exceed `maxPrice`, every required tag is among its tags (so an
empty `requiredTags` never rejects), and `preferredBrand` is absent, empty,
or equal to its brand.  (The embedding is a pure function of the graph, so it
has no side effects.) -/
theorem checkConstraints_iff (g : Graph) (productId : String) (maxPrice : Rat)
    (requiredTags : List String) (preferredBrand : Option String) (d : NodeAttrs)
    (h : g.getNode productId = some d) :
    checkConstraints g productId maxPrice requiredTags preferredBrand = true ↔
      (d.stock = true ∧ d.price ≤ maxPrice ∧ (∀ t ∈ requiredTags, t ∈ d.tags) ∧
        (preferredBrand = none ∨ preferredBrand = some "" ∨
          preferredBrand = some d.brand)) := by
  simp only [checkConstraints, h, Option.getD_some]
  cases hs : d.stock with
  | false => simp
  | true =>
    simp only [beq_iff_eq, Bool.true_eq_false, if_false, reduceCtorEq]
    by_cases hp : d.price > maxPrice
    · simp [hp, not_le.mpr hp]
    · simp only [hp, if_false, not_lt.mp (by exact hp)]
      by_cases ht : requiredTags.all (fun tag => d.tags.contains tag)
      · cases hb : preferredBrand with
        | none => simp_all [List.all_eq_true, List.contains, List.elem_iff, not_lt.mp hp]
        | some pb =>
          by_cases hpb : pb = ""
          · simp_all [List.all_eq_true, List.contains, List.elem_iff, not_lt.mp hp]
          · by_cases hbr : d.brand = pb
            · simp_all [List.all_eq_true, List.contains, List.elem_iff, not_lt.mp hp]
            · simp_all [List.all_eq_true, List.contains, List.elem_iff, not_lt.mp hp]
              exact fun hh => hbr hh.symm
      · simp_all [List.all_eq_true, List.contains, List.elem_iff, not_lt.mp hp]

theorem checkConstraints_iff_witness :
    checkConstraints scenarioGraph "B" 100 ["running"] none = true ↔
      ((true : Bool) = true ∧ (40 : Rat) ≤ 100 ∧
        (∀ t ∈ (["running"] : List String), t ∈ (["running", "light"] : List String)) ∧
        ((none : Option String) = none ∨ (none : Option String) = some "" ∨
          (none : Option String) = some "X")) :=
  checkConstraints_iff scenarioGraph "B" 100 ["running"] none
    ⟨NodeType.product, "X", "shoes", 40, true, ["running", "light"]⟩ (by decide)

/-! ## Claim C8 -/

/-- C8: for an out-of-stock requested product present in the graph,
`findAlternatives` is the stable descending-by-score sort of the surviving
candidates truncated to 3: the sorted list is pairwise descending, candidates
of any fixed score keep their BFS discovery order (`validList` order), and at
most 3 results are returned. -/
theorem findAlternatives_stable_ranking (g : Graph) (requestedProduct : String)
    (maxPrice : Rat) (requiredTags : List String) (preferredBrand : Option String)
    (d : NodeAttrs) (hnode : g.getNode requestedProduct = some d)
    (hstock : d.stock = false) :
    findAlternatives g requestedProduct maxPrice requiredTags preferredBrand =
      ((sortByScoreDesc (validList g requestedProduct maxPrice requiredTags
          preferredBrand)).take 3).map FAResult.cand ∧
    (sortByScoreDesc (validList g requestedProduct maxPrice requiredTags
        preferredBrand)).Pairwise (fun a b => b.score ≤ a.score) ∧
    (∀ n : Int,
      (sortByScoreDesc (validList g requestedProduct maxPrice requiredTags
          preferredBrand)).filter (fun c => c.score == n) =
        (validList g requestedProduct maxPrice requiredTags preferredBrand).filter
          (fun c => c.score == n)) ∧
    (findAlternatives g requestedProduct maxPrice requiredTags preferredBrand).length ≤ 3 := by
  refine ⟨?_, pairwise_sortByScoreDesc _, fun n => filter_sortByScoreDesc _ n, ?_⟩
  · simp [findAlternatives, hnode, hstock]
  · simp only [findAlternatives, hnode, hstock, Bool.false_eq_true, if_false,
      List.length_map, List.length_take]
    exact le_trans inf_le_left (le_refl 3)

theorem findAlternatives_stable_ranking_witness :
    findAlternatives scenarioGraph "A" 100 ["running"] none =
      ((sortByScoreDesc (validList scenarioGraph "A" 100 ["running"] none)).take 3).map
        FAResult.cand ∧
    (sortByScoreDesc (validList scenarioGraph "A" 100 ["running"] none)).Pairwise
      (fun a b => b.score ≤ a.score) ∧
    (sortByScoreDesc (validList scenarioGraph "A" 100 ["running"] none)).filter
        (fun c => c.score == (5 : Int)) =
      (validList scenarioGraph "A" 100 ["running"] none).filter
        (fun c => c.score == (5 : Int)) ∧
    (findAlternatives scenarioGraph "A" 100 ["running"] none).length ≤ 3 := by
  obtain ⟨e1, e2, e3, e4⟩ := findAlternatives_stable_ranking scenarioGraph "A" 100
    ["running"] none ⟨NodeType.product, "X", "shoes", 50, false, ["running"]⟩
    (by decide) rfl
  exact ⟨e1, e2, e3 5, e4⟩

/-! ## Claim C10 -/

/-- C10: the product list returned by `bfsSearch` contains no duplicates —
nodes may be enqueued several times, but a node is emitted only on its first
(unvisited) pop. -/
theorem bfsSearch_nodup (g : Graph) (startProduct : String)
    (_h : g.hasNode startProduct = true) : (bfsSearch g startProduct).Nodup := by
  unfold bfsSearch
  exact bfsLoop_nodup g startProduct _ _ _ _ List.nodup_nil (by simp)

theorem bfsSearch_nodup_witness :
    scenarioGraph.hasNode "A" = true ∧ (bfsSearch scenarioGraph "A").Nodup :=
  ⟨rfl, bfsSearch_nodup scenarioGraph "A" rfl⟩

/-! ## Claim C5 -/

/-- C5 counterexample: tag tokens are taken verbatim — `"running; light;"`
yields the tags `["running", " light", ""]` (no trimming), and the empty
token becomes a Tag node with a `HAS TAG` edge, contrary to the claim that
empty or whitespace-only tokens are excluded. -/
theorem createGraph_raw_tag_tokens :
    (createGraph [⟨"p", "c", "b", "10", "true", "running; light;"⟩]).map
      (fun g => ((g.getNode "p").map (fun a => a.tags), g.hasNode "",
        (g.adjOf "p").contains ("", "HAS TAG"))) =
      Except.ok (some ["running", " light", ""], true, true) := by
  rfl

/-- C5 (amended): during ingestion of a record, the tag tokens are exactly
the raw `;`-split of the tags field — not trimmed, empty tokens kept — and
every such token (including empty or whitespace-only ones) gets a node and a
`HAS TAG` edge to the product. -/
theorem processRow_tags_verbatim (g : Graph) (r : RawRecord) (g' : Graph)
    (hok : processRow g r = Except.ok g') :
    (g'.getNode r.id).map (fun a => a.tags) = some (pySplitSemi r.tags) ∧
    ∀ t ∈ pySplitSemi r.tags, g'.hasNode t = true ∧ (t, "HAS TAG") ∈ g'.adjOf r.id := by
  cases hv : pyFloat? r.price with
  | none => rw [processRow_error g r hv] at hok; cases hok
  | some v =>
    constructor
    · rw [processRow_getNode_id g r g' v hv hok]
      rfl
    · simp only [processRow, hv, Except.ok.injEq] at hok
      subst hok
      intro t ht
      exact tagFold_mem r.id _ _ t (Or.inl ht)

theorem processRow_tags_verbatim_witness :
    (rawRowGraph.getNode "p").map (fun a => a.tags) = some ["running", " light", ""] ∧
    ∀ t ∈ (["running", " light", ""] : List String),
      rawRowGraph.hasNode t = true ∧ (t, "HAS TAG") ∈ rawRowGraph.adjOf "p" :=
  processRow_tags_verbatim Graph.empty rawRow rawRowGraph rfl

/-! ## Claim C6 -/

/-- C6 counterexample: a record whose stock field is `"maybe"` — not a
recognised boolean token — does not abort the build at all: `createGraph`
succeeds and stores `stock = false` (only case-insensitive `"true"` maps to
`True`; everything else, including `"false"`, silently becomes `False`).
No `MalformedRecordError` exists in the source. -/
theorem createGraph_bad_stock_token_ok :
    (createGraph [badStockRow]).map (fun g => (g.getNode "p").map (fun a => a.stock)) =
      Except.ok (some false) := by
  rfl

/-- C6 (amended): the build fails — with Python's `ValueError` from `float()`,
there being no `MalformedRecordError` in the code — exactly when some record's
price is non-numeric; the stock field never causes a failure: ingestion always
succeeds on a parseable price and stores `stock = (stock.lower() == "true")`. -/
theorem createGraph_error_behaviour (rows : List RawRecord) (g0 : Graph) (r : RawRecord) :
    ((∃ g, createGraph rows = Except.ok g) ↔
      ∀ r' ∈ rows, (pyFloat? r'.price).isSome = true) ∧
    (pyFloat? r.price = none → processRow g0 r = Except.error PyError.valueError) ∧
    (∀ v : Rat, pyFloat? r.price = some v →
      ∃ g1, processRow g0 r = Except.ok g1 ∧
        (g1.getNode r.id).map (fun a => a.stock) = some (pyLower r.stock == "true")) := by
  refine ⟨buildFrom_ok_iff rows Graph.empty, processRow_error g0 r, ?_⟩
  intro v hv
  obtain ⟨g1, hg1⟩ := processRow_ok_exists g0 r v hv
  refine ⟨g1, hg1, ?_⟩
  rw [processRow_getNode_id g0 r g1 v hv hg1]
  rfl

theorem createGraph_error_behaviour_witness :
    (∃ g, createGraph scenarioRows = Except.ok g) ∧
    processRow Graph.empty badPriceRow = Except.error PyError.valueError ∧
    (∃ g1, processRow Graph.empty badStockRow = Except.ok g1 ∧
      (g1.getNode "p").map (fun a => a.stock) = some false) := by
  obtain ⟨h1, h2, -⟩ := createGraph_error_behaviour scenarioRows Graph.empty badPriceRow
  obtain ⟨-, -, h6⟩ := createGraph_error_behaviour scenarioRows Graph.empty badStockRow
  exact ⟨h1.mpr (by decide), h2 rfl, h6 10 (by decide)⟩

/-! ## Claim C9 -/

/-- C9 counterexample: a record whose single tag equals its own category.
The later `add_edge(product, tag)` call overwrites the `relation` attribute
of the product–category edge from `"IS A"` to `"HAS TAG"`, so the product
node ends with zero `IS A` edges. -/
theorem createGraph_tag_category_collision :
    (createGraph [⟨"p", "c", "b", "10", "true", "c"⟩]).map
      (fun g => (g.adjOf "p").filter (fun e => e.2 == "IS A")) = Except.ok [] := by
  rfl

/-- C9 (amended): for record sequences whose product ids are pairwise
distinct, whose ids collide with no category name or tag token, and in which
no record's category equals one of its own tag tokens, every product node's
adjacency is exactly one `IS A` edge to its category followed by one
`HAS TAG` edge per distinct tag token, in first-occurrence order.  (Without
those freshness conditions the claim fails, see the counterexample.) -/
theorem createGraph_product_edges (rows : List RawRecord) (g : Graph)
    (hok : createGraph rows = Except.ok g)
    (hids : (rows.map RawRecord.id).Nodup)
    (hcat : ∀ r1 ∈ rows, ∀ r2 ∈ rows, r1.id ≠ r2.category)
    (htag : ∀ r1 ∈ rows, ∀ r2 ∈ rows, r1.id ∉ pySplitSemi r2.tags)
    (hselftag : ∀ r1 ∈ rows, r1.category ∉ pySplitSemi r1.tags)
    (r : RawRecord) (hr : r ∈ rows) :
    g.adjOf r.id = (r.category, "IS A") ::
      (dedupFirst (pySplitSemi r.tags)).map (fun t => (t, "HAS TAG")) ∧
    ((g.adjOf r.id).filter (fun e => e.2 == "IS A")).length = 1 ∧
    ((g.adjOf r.id).filter (fun e => e.2 == "HAS TAG")).map Prod.fst =
      dedupFirst (pySplitSemi r.tags) ∧
    (dedupFirst (pySplitSemi r.tags)).Nodup := by
  obtain ⟨l1, l2, rfl⟩ := List.append_of_mem hr
  have hmm : r ∈ l1 ++ r :: l2 := List.mem_append_right _ (List.mem_cons_self _ _)
  have hids' : r.id ∉ l1.map RawRecord.id ∧ r.id ∉ l2.map RawRecord.id := by
    rw [List.map_append, List.map_cons, List.nodup_append] at hids
    obtain ⟨hn1, hn2, hdisj⟩ := hids
    exact ⟨fun hin => hdisj hin (List.mem_cons_self _ _), (List.nodup_cons.mp hn2).1⟩
  have huntouch : ∀ r' ∈ l1 ++ r :: l2, r.id ≠ r'.id → ¬ touches r' r.id := by
    intro r' hr' hne htouch
    rcases htouch with h | h | h
    · exact hne h
    · exact hcat r hmm r' hr' h
    · exact htag r hmm r' hr' h
  have hl1 : ∀ r' ∈ l1, ¬ touches r' r.id := by
    intro r' hr'
    apply huntouch r' (List.mem_append_left _ hr')
    intro hh
    apply hids'.1
    rw [hh]
    exact List.mem_map_of_mem RawRecord.id hr'
  have hl2 : ∀ r' ∈ l2, ¬ touches r' r.id := by
    intro r' hr'
    apply huntouch r' (by simp [hr'])
    intro hh
    apply hids'.2
    rw [hh]
    exact List.mem_map_of_mem RawRecord.id hr'
  have hok' : buildFrom Graph.empty (l1 ++ r :: l2) = Except.ok g := hok
  rw [buildFrom_append l1 (r :: l2) Graph.empty] at hok'
  cases h1 : buildFrom Graph.empty l1 with
  | error e => rw [h1] at hok'; cases hok'
  | ok g1 =>
    rw [h1] at hok'
    have hadj1 : g1.adjOf r.id = [] := by
      rw [buildFrom_adj_untouched l1 Graph.empty g1 r.id h1 hl1]
      rfl
    cases h2 : processRow g1 r with
    | error e => simp [buildFrom, h2] at hok'
    | ok g2 =>
      have hok2 : buildFrom g2 l2 = Except.ok g := by
        simp only [buildFrom, h2] at hok'
        exact hok'
      have hfresh := processRow_adj_fresh g1 r g2 h2 hadj1 (hcat r hmm r hmm)
        (htag r hmm r hmm) (hselftag r hmm)
      have hfinal : g.adjOf r.id = g2.adjOf r.id :=
        buildFrom_adj_untouched l2 g2 g r.id hok2 hl2
      rw [hfinal, hfresh]
      refine ⟨rfl, ?_, ?_, dedupFirst_nodup _⟩
      · rw [List.filter_cons]
        simp [filter_isA_map_hasTag]
      · rw [List.filter_cons]
        rw [if_neg (by simp), filter_hasTag_map_hasTag, map_fst_pair_hasTag]

theorem createGraph_product_edges_witness :
    scenarioGraph.adjOf "B" =
      [("shoes", "IS A"), ("running", "HAS TAG"), ("light", "HAS TAG")] ∧
    ((scenarioGraph.adjOf "B").filter (fun e => e.2 == "IS A")).length = 1 ∧
    ((scenarioGraph.adjOf "B").filter (fun e => e.2 == "HAS TAG")).map Prod.fst =
      ["running", "light"] ∧
    (["running", "light"] : List String).Nodup :=
  createGraph_product_edges scenarioRows scenarioGraph rfl (by decide) (by decide)
    (by decide) (by decide) rowB (by decide)
